import Mathlib

/-!
Shallow embedding of the `find_project` launcher (`src/main.rs`): depth-bounded
project discovery, config parsing, the fzf selection gateway, tmux session-name
parsing, and the session-reconciliation decision logic.

OS-level strings (`OsStr`/`OsString` in the source) are modelled as either a
valid-UTF-8 string or an opaque non-UTF-8 byte sequence; the only operation the
source applies to them is `to_str`. Paths (`PathBuf`) are modelled as lists of
components; `PathBuf::push` appends a component and `file_name` inspects the
last one. Filesystem state for the scanner is a finite entry tree carrying the
three failure points the source distinguishes: an entry the directory iterator
fails to yield, an entry whose `metadata()` call fails, and a directory that
`fs::read_dir` fails to open.
-/

deriving instance DecidableEq for Except

namespace FindProject

/-- An OS string: bytes that are either valid UTF-8 or not. -/
inductive OsString where
  | utf8 (s : String)
  | nonUtf8 (bytes : List Nat)
deriving DecidableEq

/-- Model of `OsStr::to_str`: succeeds exactly on valid UTF-8. -/
def OsString.toStr : OsString → Option String
  | .utf8 s => some s
  | .nonUtf8 _ => none

/-- Emptiness of an OS string (used only to state the spec's marker predicate). -/
def OsString.isEmptyOs : OsString → Bool
  | .utf8 s => s.isEmpty
  | .nonUtf8 b => b.isEmpty

/-- A path is a list of components (model of `PathBuf`). -/
abbrev OsPath := List OsString

/-- Split a character list at every occurrence of `c` (the separator is
dropped); always returns at least one (possibly empty) piece. -/
def splitAtChar (c : Char) : List Char → List (List Char)
  | [] => [[]]
  | x :: xs =>
    if x = c then [] :: splitAtChar c xs
    else match splitAtChar c xs with
      | [] => [[x]]
      | h :: t => (x :: h) :: t

/-- Model of `PathBuf::from(s)` for a UTF-8 string: split on the separator. -/
def strToPath (s : String) : OsPath :=
  (splitAtChar '/' s.data).map (fun cs => OsString.utf8 (String.mk cs))

/-- Model of `Path::to_str`: all components must be valid UTF-8. -/
def pathToStr (p : OsPath) : Option String :=
  (p.mapM OsString.toStr).map
    (fun cs => String.mk (List.intercalate ['/'] (cs.map String.data)))

/-- Model of `Path::file_name`: the last component, unless it is empty
(path ending in a separator / filesystem root) or `..`. -/
def fileName (p : OsPath) : Option OsString :=
  match p.getLast? with
  | some (OsString.utf8 "") => none
  | some (OsString.utf8 "..") => none
  | some c => some c
  | none => none

/-- A project directory (struct `Project` in the source). -/
structure Project where
  inner : OsPath
deriving DecidableEq

/-- `Project::name`: `file_name` of the path converted by `to_str`. -/
def Project.name (p : Project) : Option String :=
  (fileName p.inner).bind OsString.toStr

/-- `Project::full_path`. -/
def Project.full_path (p : Project) : OsPath := p.inner

/-- A source directory entry (struct `SrcDir` in the source). -/
structure SrcDir where
  path : OsPath
  search_depth : Nat
deriving DecidableEq

/-- Model of `str::split_once` on a list of characters: split at the first
occurrence of `c`; `none` when `c` does not occur. -/
def splitOnceList (c : Char) : List Char → Option (List Char × List Char)
  | [] => none
  | x :: xs =>
    if x = c then some ([], xs)
    else match splitOnceList c xs with
      | none => none
      | some (a, b) => some (x :: a, b)

/-- Model of `str::split_once` on strings. -/
def splitOnce (c : Char) (s : String) : Option (String × String) :=
  (splitOnceList c s.data).map (fun ab => (String.mk ab.1, String.mk ab.2))

/-- Model of `str::lines`: split on `'\n'`; every piece except the last was
terminated by a newline and sheds one trailing `'\r'`; the last piece is kept
only when non-empty (the final line ending is optional). -/
def rustLines (s : String) : List String :=
  let parts := splitAtChar '\n' s.data
  let init := parts.dropLast.map (fun l =>
    match l.getLast? with
    | some '\r' => l.dropLast
    | _ => l)
  let lastPart := match parts.getLast? with
    | some [] => []
    | some l => [l]
    | none => []
  (init ++ lastPart).map String.mk

/-- Model of `u8::from_str`: an optional leading `+`, then one or more ASCII
digits, and the value must fit in eight bits. -/
def parseU8 (s : String) : Option Nat :=
  let cs := match s.data with
    | '+' :: rest => rest
    | cs => cs
  if cs.isEmpty then none
  else if cs.all Char.isDigit then
    let n := cs.foldl (fun acc c => acc * 10 + (c.toNat - '0'.toNat)) 0
    if n < 256 then some n else none
  else none

/-- Model of `str::trim`: drop whitespace from both ends. -/
def rustTrim (s : String) : String :=
  String.mk (((s.data.dropWhile Char.isWhitespace).reverse.dropWhile
    Char.isWhitespace).reverse)

/-- One line of the config file: `split_once(' ')`, path from the first field,
depth parsed as `u8` from the second; any failure drops the line. -/
def parseConfigLine (line : String) : Option SrcDir :=
  (splitOnce ' ' line).bind (fun pd =>
    (parseU8 pd.2).map (fun d => SrcDir.mk (strToPath pd.1) d))

/-- `read_config_file`: parse each line, keeping only the well-formed ones,
then append the implicit `$HOME/src` entry with depth 2. -/
def read_config_file (contents : String) (home : String) : List SrcDir :=
  (rustLines contents).filterMap parseConfigLine
    ++ [SrcDir.mk (strToPath (home ++ "/src")) 2]

/-- Session-name extraction from `tmux list-sessions` output: for each line,
`split_once(':')` and keep the part before the colon; lines without a colon
are dropped. -/
def activeSessionNames (output : String) : List String :=
  (rustLines output).filterMap (fun line => (splitOnce ':' line).map Prod.fst)

/-- Model of `std::env::var` errors. -/
inductive VarError where
  | notPresent
  | notUnicode
deriving DecidableEq

/-- Model of `std::env::var`: absent variables and non-UTF-8 values error. -/
def envVar (v : Option OsString) : Except VarError String :=
  match v with
  | none => .error .notPresent
  | some (.utf8 s) => .ok s
  | some (.nonUtf8 _) => .error .notUnicode

/-- `env::var("TMUX").is_ok()`: whether the caller runs inside tmux. -/
def inTmux (tmuxVar : Option OsString) : Bool :=
  match envVar tmuxVar with
  | .ok _ => true
  | .error _ => false

/-- The spec's marker predicate, stated from its words: the marker variable is
present and non-empty. -/
def specInsideSession (tmuxVar : Option OsString) : Bool :=
  match tmuxVar with
  | none => false
  | some s => !s.isEmptyOs

/-- An external command invocation: binary and arguments. -/
structure Cmd where
  bin : String
  args : List String
deriving DecidableEq

/-- The tmux binary path used by the source. -/
def TMUX_BIN : String := "/usr/bin/tmux"

/-- `switch_to_project_in_tmux`: decides the sequence of tmux commands from
whether the caller is inside tmux and whether a session named after the
project already exists. Errors when the project name or (where a new session
must be created) the full path cannot be rendered as a string. -/
def switch_to_project_in_tmux (project : Project) (active_sessions : List String)
    (tmuxVar : Option OsString) : Except String (List Cmd) :=
  let in_tmux := inTmux tmuxVar
  match project.name with
  | none => .error "Failed to get project name."
  | some project_name =>
    let session_exists := active_sessions.contains project_name
    if in_tmux then
      if session_exists then
        .ok [Cmd.mk TMUX_BIN ["switch", "-t", project_name]]
      else
        match pathToStr project.full_path with
        | none => .error "Failed to convert full path to str."
        | some p =>
          .ok [Cmd.mk TMUX_BIN ["new-session", "-c", p, "-s", project_name, "-d"],
               Cmd.mk TMUX_BIN ["switch", "-t", project_name]]
    else
      if session_exists then
        .ok [Cmd.mk TMUX_BIN ["attach", "-t", project_name]]
      else
        match pathToStr project.full_path with
        | none => .error "Failed to convert full path to str."
        | some p =>
          .ok [Cmd.mk TMUX_BIN ["new-session", "-c", p, "-s", project_name]]

/-- The spec's four-cell reconciliation table, stated from its words, to be
compared with `switch_to_project_in_tmux`. -/
def reconcileSpecTable (insideSession targetExists : Bool)
    (name path : String) : List Cmd :=
  match insideSession, targetExists with
  | true, true => [Cmd.mk TMUX_BIN ["switch", "-t", name]]
  | true, false => [Cmd.mk TMUX_BIN ["new-session", "-c", path, "-s", name, "-d"],
                    Cmd.mk TMUX_BIN ["switch", "-t", name]]
  | false, true => [Cmd.mk TMUX_BIN ["attach", "-t", name]]
  | false, false => [Cmd.mk TMUX_BIN ["new-session", "-c", path, "-s", name]]

/-- A directory entry as the scanner observes it: the iterator may fail to
yield the entry (`err`), and an entry it does yield carries a name, a flag for
whether `metadata()` succeeds, and — for directories — a flag for whether
`fs::read_dir` succeeds, plus the sub-entries. -/
inductive FsEntry where
  | err : FsEntry
  | fileE (name : OsString) (metaOk : Bool) : FsEntry
  | dirE (name : OsString) (metaOk : Bool) (readOk : Bool) (sub : List FsEntry) : FsEntry

/-- `get_projects_recur`: at depth `> 1` recurse into each subdirectory with
depth decremented; at the terminal depth record each subdirectory as a
`Project`. Entries the iterator fails to yield are skipped; a failing
`metadata()` call or a failing `read_dir` on a subdirectory aborts with an
error, as the source's `?` operators do. -/
def get_projects_recur (dirPath : OsPath) (entries : List FsEntry) (depth : Nat) :
    Except Unit (List Project) :=
  if depth > 1 then
    match entries with
    | [] => .ok []
    | FsEntry.err :: rest => get_projects_recur dirPath rest depth
    | FsEntry.fileE _ metaOk :: rest =>
      if metaOk then get_projects_recur dirPath rest depth else .error ()
    | FsEntry.dirE name metaOk readOk sub :: rest =>
      if metaOk then
        if readOk then
          match get_projects_recur (dirPath ++ [name]) sub (depth - 1) with
          | .error e => .error e
          | .ok inner =>
            match get_projects_recur dirPath rest depth with
            | .error e => .error e
            | .ok outer => .ok (inner ++ outer)
        else .error ()
      else .error ()
  else
    match entries with
    | [] => .ok []
    | FsEntry.err :: rest => get_projects_recur dirPath rest depth
    | FsEntry.fileE _ metaOk :: rest =>
      if metaOk then get_projects_recur dirPath rest depth else .error ()
    | FsEntry.dirE name metaOk _ _ :: rest =>
      if metaOk then
        match get_projects_recur dirPath rest depth with
        | .error e => .error e
        | .ok r => .ok (Project.mk (dirPath ++ [name]) :: r)
      else .error ()
termination_by sizeOf entries
decreasing_by all_goals (simp_wf; try omega)

/-- `get_projects`: run the recursive scan with an empty accumulator. -/
def get_projects (dirPath : OsPath) (entries : List FsEntry) (depth : Nat) :
    Except Unit (List Project) :=
  get_projects_recur dirPath entries depth

/-- `rel` traces a chain of directory entries from a listing: each step names
a subdirectory present at the current level. -/
inductive IsDirPath : List FsEntry → List OsString → Prop where
  | nil (es : List FsEntry) : IsDirPath es []
  | cons (es : List FsEntry) (name : OsString) (metaOk readOk : Bool)
      (sub : List FsEntry) (rest : List OsString) :
      FsEntry.dirE name metaOk readOk sub ∈ es → IsDirPath sub rest →
      IsDirPath es (name :: rest)

/-- The whole-discovery phase of `main`: for each source dir, open it
(failure skips the dir), scan it (failure skips the dir), and concatenate. -/
def collectProjects (fsRoot : OsPath → Option (List FsEntry))
    (src_dirs : List SrcDir) : List Project :=
  (src_dirs.filterMap (fun s =>
    (fsRoot s.path).bind (fun es =>
      (get_projects s.path es s.search_depth).toOption))).flatten

/-- The fzf input built in `main`: each project path that converts to UTF-8
contributes one line; paths that do not convert are dropped. -/
def fzfInput (projects : List Project) : String :=
  (projects.filterMap (fun p => pathToStr p.full_path)).foldl
    (fun acc path => (acc ++ path).push '\n') ""

/-- The selection arm of `main`: interpret fzf's exit code and raw stdout. -/
def selectedProject (code : Option Int) (stdoutBytes : OsString) :
    Except String Project :=
  match code with
  | some c =>
    if c = 0 then
      match stdoutBytes.toStr with
      | some s => .ok (Project.mk (strToPath (rustTrim s)))
      | none => .error "Failed to convert path from OsStr to str"
    else if c = 130 then .error "You did not select project."
    else .error ("fzf errored with code: " ++ toString c ++ ".")
  | none => .error "Nothing was returned by fzf."

/-- C1: for every chosen project whose name (and path) renders, the reconciler
emits exactly the spec's four-cell decision table over
(runningInsideSession, targetSessionExists). -/
theorem reconciler_matches_decision_table (project : Project) (n p : String)
    (active_sessions : List String) (tmuxVar : Option OsString)
    (hname : project.name = some n)
    (hpath : pathToStr project.full_path = some p) :
    switch_to_project_in_tmux project active_sessions tmuxVar =
      .ok (reconcileSpecTable (inTmux tmuxVar) (active_sessions.contains n) n p) := by
  cases h1 : inTmux tmuxVar <;> cases h2 : active_sessions.contains n <;>
    simp only [switch_to_project_in_tmux, reconcileSpecTable, hname, hpath, h1, h2,
      Bool.false_eq_true, if_true, if_false, ite_true, ite_false]

theorem reconciler_matches_decision_table_witness :
    switch_to_project_in_tmux (Project.mk (strToPath "/x/foo")) [] none =
      .ok (reconcileSpecTable (inTmux none) (List.contains [] "foo") "foo" "/x/foo") :=
  reconciler_matches_decision_table (Project.mk (strToPath "/x/foo")) "foo" "/x/foo"
    [] none (by decide) (by decide)

/-- C5: picker exit 130 is NoSelection regardless of stdout; exit 0 wraps the
trimmed stdout as the chosen project; other or missing exit codes are
external-tool errors. -/
theorem selection_gateway_cases :
    (∀ out, selectedProject (some 130) out = .error "You did not select project.") ∧
    (∀ out s, OsString.toStr out = some s →
      selectedProject (some 0) out = .ok (Project.mk (strToPath (rustTrim s)))) ∧
    (selectedProject (some 0) (OsString.utf8 "/a/b/proj\n") =
      .ok (Project.mk (strToPath "/a/b/proj"))) ∧
    (∀ c : Int, c ≠ 0 → c ≠ 130 → ∀ out,
      selectedProject (some c) out =
        .error ("fzf errored with code: " ++ toString c ++ ".")) ∧
    (∀ out, selectedProject none out = .error "Nothing was returned by fzf.") := by
  refine ⟨fun out => rfl, fun out s h => by simp [selectedProject, h], by decide,
    fun c h0 h130 out => by simp [selectedProject, h0, h130], fun out => rfl⟩

theorem selection_gateway_cases_witness :
    selectedProject (some 0) (OsString.utf8 " /p \n") =
      .ok (Project.mk (strToPath (rustTrim " /p \n"))) ∧
    selectedProject (some 7) (OsString.utf8 "") =
      .error ("fzf errored with code: " ++ toString (7 : Int) ++ ".") :=
  ⟨selection_gateway_cases.2.1 (OsString.utf8 " /p \n") " /p \n" rfl,
   selection_gateway_cases.2.2.2.1 7 (by decide) (by decide) (OsString.utf8 "")⟩

/-- C6 counterexample: the config line `/x 0` is accepted and produces a
SourceRoot with depth 0. -/
theorem depth_zero_accepted_cex :
    SrcDir.mk (strToPath "/x") 0 ∈ read_config_file "/x 0" "/h" := by decide

/-- C6 amended: a config line whose depth field is the numeral 0 parses
successfully to a SourceRoot of depth 0 and lands in the parsed root list. -/
theorem depth_zero_line_accepted :
    (∀ line p, splitOnce ' ' line = some (p, "0") →
      parseConfigLine line = some (SrcDir.mk (strToPath p) 0)) ∧
    (∀ contents home line p, line ∈ rustLines contents →
      splitOnce ' ' line = some (p, "0") →
      SrcDir.mk (strToPath p) 0 ∈ read_config_file contents home) := by
  have h1 : ∀ line p, splitOnce ' ' line = some (p, "0") →
      parseConfigLine line = some (SrcDir.mk (strToPath p) 0) := by
    intro line p h
    simp [parseConfigLine, h]
    rfl
  refine ⟨h1, fun contents home line p hmem hsplit => ?_⟩
  unfold read_config_file
  exact List.mem_append_left _ (List.mem_filterMap.mpr ⟨line, hmem, h1 line p hsplit⟩)

theorem depth_zero_line_accepted_witness :
    parseConfigLine "/x 0" = some (SrcDir.mk (strToPath "/x") 0) ∧
    SrcDir.mk (strToPath "/x") 0 ∈ read_config_file "/y 1\n/x 0" "/h" :=
  ⟨depth_zero_line_accepted.1 "/x 0" "/x" (by decide),
   depth_zero_line_accepted.2 "/y 1\n/x 0" "/h" "/x 0" "/x" (by decide) (by decide)⟩

/-- C7 counterexample: a marker present but set to the empty string makes the
code report "inside a session", while the claim's predicate says otherwise. -/
theorem marker_empty_cex :
    inTmux (some (OsString.utf8 "")) = true ∧
    specInsideSession (some (OsString.utf8 "")) = false := by decide

/-- C7 amended: runningInsideSession is true iff the marker variable is
present with a valid-Unicode value, empty or not. -/
theorem in_tmux_iff_present_unicode (v : Option OsString) :
    inTmux v = true ↔ ∃ s, v = some (OsString.utf8 s) := by
  cases v with
  | none => simp [inTmux, envVar]
  | some os => cases os <;> simp [inTmux, envVar]

/-- C8: a well-formed config line parses to its SourceRoot, a malformed line
is skipped without stopping later lines, and the implicit HOME/src depth-2
entry is appended after all file entries. -/
theorem config_parsing_round_trip :
    (∀ home, read_config_file "/home/u/work 3\n/bad\n/also 4" home =
      [SrcDir.mk (strToPath "/home/u/work") 3, SrcDir.mk (strToPath "/also") 4,
       SrcDir.mk (strToPath (home ++ "/src")) 2]) ∧
    (∀ contents home, ∃ l, read_config_file contents home =
      l ++ [SrcDir.mk (strToPath (home ++ "/src")) 2]) := by
  constructor
  · intro home
    have h : (rustLines "/home/u/work 3\n/bad\n/also 4").filterMap parseConfigLine =
        [SrcDir.mk (strToPath "/home/u/work") 3, SrcDir.mk (strToPath "/also") 4] := by
      decide
    simp [read_config_file, h]
  · exact fun contents home => ⟨_, rfl⟩

/-- C10: a discovered project whose path is not valid UTF-8 contributes no
line to the picker input; the surrounding projects' lines are unchanged. -/
theorem non_utf8_project_omitted (pre post : List Project) (p : Project)
    (h : pathToStr p.full_path = none) :
    fzfInput (pre ++ p :: post) = fzfInput (pre ++ post) := by
  simp [fzfInput, List.filterMap_append, List.filterMap_cons, h]

theorem non_utf8_project_omitted_witness :
    pathToStr (Project.mk [OsString.nonUtf8 [255]]).full_path = none ∧
    fzfInput [Project.mk (strToPath "/a"), Project.mk [OsString.nonUtf8 [255]]] =
      fzfInput [Project.mk (strToPath "/a")] :=
  ⟨by decide, non_utf8_project_omitted [Project.mk (strToPath "/a")] []
    (Project.mk [OsString.nonUtf8 [255]]) (by decide)⟩

/-- C4: when opening or scanning one source root fails, only that root is
dropped; the concatenated project list equals the one without that root. -/
theorem failing_root_isolated (fsRoot : OsPath → Option (List FsEntry))
    (pre post : List SrcDir) (bad : SrcDir)
    (h : (fsRoot bad.path).bind (fun es =>
      (get_projects bad.path es bad.search_depth).toOption) = none) :
    collectProjects fsRoot (pre ++ bad :: post) = collectProjects fsRoot (pre ++ post) := by
  simp [collectProjects, List.filterMap_append, List.filterMap_cons, h]

theorem failing_root_isolated_witness :
    ((fun q => if q = strToPath "/r1"
        then some [FsEntry.dirE (OsString.utf8 "a") true true []] else none)
      (SrcDir.mk (strToPath "/r2") 1).path).bind (fun es =>
        (get_projects (SrcDir.mk (strToPath "/r2") 1).path es
          (SrcDir.mk (strToPath "/r2") 1).search_depth).toOption) = none ∧
    collectProjects (fun q => if q = strToPath "/r1"
        then some [FsEntry.dirE (OsString.utf8 "a") true true []] else none)
      [SrcDir.mk (strToPath "/r1") 1, SrcDir.mk (strToPath "/r2") 1] =
    collectProjects (fun q => if q = strToPath "/r1"
        then some [FsEntry.dirE (OsString.utf8 "a") true true []] else none)
      [SrcDir.mk (strToPath "/r1") 1] :=
  ⟨by decide, failing_root_isolated _ [SrcDir.mk (strToPath "/r1") 1] []
    (SrcDir.mk (strToPath "/r2") 1) (by decide)⟩


lemma splitOnceList_spec (c : Char) (l : List Char) :
    splitOnceList c l =
      if c ∈ l then
        some (l.takeWhile (fun x => x != c), (l.dropWhile (fun x => x != c)).tail)
      else none := by
  induction l with
  | nil => simp [splitOnceList]
  | cons x xs ih =>
    by_cases hx : x = c
    · subst hx
      simp [splitOnceList]
    · have hbne : (x != c) = true := by simp [bne, hx]
      simp only [splitOnceList, if_neg hx, ih, List.mem_cons, List.takeWhile_cons,
        List.dropWhile_cons, hbne, if_true]
      by_cases hc : c ∈ xs
      · simp [hc, Ne.symm hx]
      · simp [hc, Ne.symm hx]

/-- C9: each list-sessions output line contributes the prefix before its first
colon as a session name, and lines without a colon are discarded. -/
theorem session_names_from_lines (output : String) :
    activeSessionNames output = (rustLines output).filterMap (fun line =>
      if (':') ∈ line.data then
        some (String.mk (line.data.takeWhile (fun ch => ch != ':')))
      else none) := by
  unfold activeSessionNames
  congr 1
  funext line
  unfold splitOnce
  rw [splitOnceList_spec]
  by_cases h : (':') ∈ line.data <;> simp [h]

lemma recur_nil (dirPath : OsPath) (d : Nat) :
    get_projects_recur dirPath [] d = .ok [] := by
  rw [get_projects_recur.eq_def]
  split <;> rfl

lemma recur_err (dirPath : OsPath) (rest : List FsEntry) (d : Nat) :
    get_projects_recur dirPath (FsEntry.err :: rest) d =
      get_projects_recur dirPath rest d := by
  rw [get_projects_recur.eq_def]
  split <;> rfl

lemma recur_fileE_true (dirPath : OsPath) (name : OsString) (rest : List FsEntry)
    (d : Nat) :
    get_projects_recur dirPath (FsEntry.fileE name true :: rest) d =
      get_projects_recur dirPath rest d := by
  rw [get_projects_recur.eq_def]
  split <;> rfl

lemma recur_fileE_false (dirPath : OsPath) (name : OsString) (rest : List FsEntry)
    (d : Nat) :
    get_projects_recur dirPath (FsEntry.fileE name false :: rest) d = .error () := by
  rw [get_projects_recur.eq_def]
  split <;> rfl

lemma recur_dirE_metaFalse (dirPath : OsPath) (name : OsString) (readOk : Bool)
    (sub rest : List FsEntry) (d : Nat) :
    get_projects_recur dirPath (FsEntry.dirE name false readOk sub :: rest) d =
      .error () := by
  rw [get_projects_recur.eq_def]
  split <;> rfl

lemma recur_dirE_deep (dirPath : OsPath) (name : OsString) (sub rest : List FsEntry)
    (d : Nat) (hd : d > 1) :
    get_projects_recur dirPath (FsEntry.dirE name true true sub :: rest) d =
      (match get_projects_recur (dirPath ++ [name]) sub (d - 1) with
       | .error e => .error e
       | .ok inner =>
         match get_projects_recur dirPath rest d with
         | .error e => .error e
         | .ok outer => .ok (inner ++ outer)) := by
  rw [get_projects_recur.eq_def]
  simp [hd]

lemma recur_dirE_deep_readFalse (dirPath : OsPath) (name : OsString)
    (sub rest : List FsEntry) (d : Nat) (hd : d > 1) :
    get_projects_recur dirPath (FsEntry.dirE name true false sub :: rest) d =
      .error () := by
  rw [get_projects_recur.eq_def]
  simp [hd]

lemma recur_dirE_shallow (dirPath : OsPath) (name : OsString) (readOk : Bool)
    (sub rest : List FsEntry) (d : Nat) (hd : ¬ d > 1) :
    get_projects_recur dirPath (FsEntry.dirE name true readOk sub :: rest) d =
      (match get_projects_recur dirPath rest d with
       | .error e => .error e
       | .ok r => .ok (Project.mk (dirPath ++ [name]) :: r)) := by
  rw [get_projects_recur.eq_def]
  simp [hd]

lemma isDirPath_mono {es es2 : List FsEntry} {rel : List OsString}
    (hsub : ∀ e, e ∈ es → e ∈ es2) (h : IsDirPath es rel) : IsDirPath es2 rel := by
  cases h with
  | nil => exact IsDirPath.nil es2
  | cons _ name metaOk readOk sub rest hmem hrest =>
    exact IsDirPath.cons es2 name metaOk readOk sub rest (hsub _ hmem) hrest

lemma isDirPath_tail {e : FsEntry} {es : List FsEntry} {rel : List OsString}
    (h : IsDirPath es rel) : IsDirPath (e :: es) rel :=
  isDirPath_mono (fun _ hx => List.mem_cons_of_mem e hx) h

theorem get_projects_recur_spec (dirPath : OsPath) (entries : List FsEntry) (d : Nat) :
    ∀ ps, 1 ≤ d → get_projects_recur dirPath entries d = .ok ps →
    ∀ p ∈ ps, ∃ rel, p.inner = dirPath ++ rel ∧ rel.length = d ∧ IsDirPath entries rel := by
  induction dirPath, entries, d using get_projects_recur.induct with
  | case1 dirPath depth hd =>
    intro ps _ h p hp
    rw [recur_nil] at h
    cases h
    cases hp
  | case2 dirPath depth hd rest ih =>
    intro ps h1 h p hp
    rw [recur_err] at h
    obtain ⟨rel, h₁, h₂, h₃⟩ := ih ps h1 h p hp
    exact ⟨rel, h₁, h₂, isDirPath_tail h₃⟩
  | case3 dirPath depth hd name rest ih =>
    intro ps h1 h p hp
    rw [recur_fileE_true] at h
    obtain ⟨rel, h₁, h₂, h₃⟩ := ih ps h1 h p hp
    exact ⟨rel, h₁, h₂, isDirPath_tail h₃⟩
  | case4 dirPath depth hd name metaOk rest hm =>
    intro ps h1 h p hp
    rw [Bool.not_eq_true] at hm
    subst hm
    rw [recur_fileE_false] at h
    cases h
  | case5 dirPath depth hd name sub rest e hsub ihsub =>
    intro ps h1 h p hp
    rw [recur_dirE_deep dirPath name sub rest depth hd, hsub] at h
    cases h
  | case6 dirPath depth hd name sub rest inner hsub e hrest ihsub ihrest =>
    intro ps h1 h p hp
    rw [recur_dirE_deep dirPath name sub rest depth hd, hsub, hrest] at h
    cases h
  | case7 dirPath depth hd name sub rest inner hsub outer hrest ihsub ihrest =>
    intro ps h1 h p hp
    rw [recur_dirE_deep dirPath name sub rest depth hd, hsub, hrest] at h
    cases h
    rcases List.mem_append.mp hp with hin | hout
    · obtain ⟨rel, h₁, h₂, h₃⟩ :=
        ihsub inner (by omega) hsub p hin
      refine ⟨name :: rel, ?_, ?_, ?_⟩
      · rw [h₁, List.append_assoc]
        rfl
      · simp [h₂]
        omega
      · exact IsDirPath.cons _ name true true sub rel (List.mem_cons_self _ _) h₃
    · obtain ⟨rel, h₁, h₂, h₃⟩ := ihrest outer h1 hrest p hout
      exact ⟨rel, h₁, h₂, isDirPath_tail h₃⟩
  | case8 dirPath depth hd name readOk sub rest hro =>
    intro ps h1 h p hp
    rw [Bool.not_eq_true] at hro
    subst hro
    rw [recur_dirE_deep_readFalse dirPath name sub rest depth hd] at h
    cases h
  | case9 dirPath depth hd name metaOk readOk sub rest hm =>
    intro ps h1 h p hp
    rw [Bool.not_eq_true] at hm
    subst hm
    rw [recur_dirE_metaFalse] at h
    cases h
  | case10 dirPath depth hd =>
    intro ps _ h p hp
    rw [recur_nil] at h
    cases h
    cases hp
  | case11 dirPath depth hd rest ih =>
    intro ps h1 h p hp
    rw [recur_err] at h
    obtain ⟨rel, h₁, h₂, h₃⟩ := ih ps h1 h p hp
    exact ⟨rel, h₁, h₂, isDirPath_tail h₃⟩
  | case12 dirPath depth hd name rest ih =>
    intro ps h1 h p hp
    rw [recur_fileE_true] at h
    obtain ⟨rel, h₁, h₂, h₃⟩ := ih ps h1 h p hp
    exact ⟨rel, h₁, h₂, isDirPath_tail h₃⟩
  | case13 dirPath depth hd name metaOk rest hm =>
    intro ps h1 h p hp
    rw [Bool.not_eq_true] at hm
    subst hm
    rw [recur_fileE_false] at h
    cases h
  | case14 dirPath depth hd name readOk sub rest e hrest ihrest =>
    intro ps h1 h p hp
    rw [recur_dirE_shallow dirPath name readOk sub rest depth hd, hrest] at h
    cases h
  | case15 dirPath depth hd name readOk sub rest r hrest ihrest =>
    intro ps h1 h p hp
    rw [recur_dirE_shallow dirPath name readOk sub rest depth hd, hrest] at h
    cases h
    rcases List.mem_cons.mp hp with hhead | htail
    · subst hhead
      refine ⟨[name], rfl, ?_, ?_⟩
      · simp
        omega
      · exact IsDirPath.cons _ name true readOk sub [] (List.mem_cons_self _ _)
          (IsDirPath.nil sub)
    · obtain ⟨rel, h₁, h₂, h₃⟩ := ihrest r h1 hrest p htail
      exact ⟨rel, h₁, h₂, isDirPath_tail h₃⟩
  | case16 dirPath depth hd name metaOk readOk sub rest hm =>
    intro ps h1 h p hp
    rw [Bool.not_eq_true] at hm
    subst hm
    rw [recur_dirE_metaFalse] at h
    cases h

/-- C2: on a successful scan with depth d >= 1, every returned project path
lies exactly d components below the scanned root, along a chain of
directories of the tree; intermediate levels and non-directories never
appear. -/
theorem scanner_depth_exact (root : OsPath) (entries : List FsEntry) (d : Nat)
    (ps : List Project) (hd : 1 ≤ d) (h : get_projects root entries d = .ok ps) :
    ∀ p ∈ ps, ∃ rel, p.inner = root ++ rel ∧ rel.length = d ∧ IsDirPath entries rel :=
  get_projects_recur_spec root entries d ps hd h

theorem scanner_depth_exact_witness :
    ∃ rel,
      (Project.mk (strToPath "/r" ++ [OsString.utf8 "a", OsString.utf8 "p"])).inner =
        strToPath "/r" ++ rel ∧ rel.length = 2 ∧
      IsDirPath [FsEntry.dirE (OsString.utf8 "a") true true
        [FsEntry.dirE (OsString.utf8 "p") true true [],
         FsEntry.fileE (OsString.utf8 "f") true]] rel :=
  scanner_depth_exact (strToPath "/r")
    [FsEntry.dirE (OsString.utf8 "a") true true
      [FsEntry.dirE (OsString.utf8 "p") true true [],
       FsEntry.fileE (OsString.utf8 "f") true]] 2
    [Project.mk (strToPath "/r" ++ [OsString.utf8 "a", OsString.utf8 "p"])]
    (by decide)
    (by simp [get_projects, recur_dirE_deep, recur_dirE_shallow, recur_fileE_true,
      recur_nil])
    (Project.mk (strToPath "/r" ++ [OsString.utf8 "a", OsString.utf8 "p"]))
    (List.mem_singleton.mpr rfl)

/-- C3 counterexample: with depth 1 and entries [a (metadata unreadable), b],
the whole root scan aborts with an error instead of skipping `a` and
returning the project `b`. -/
theorem metadata_error_aborts_cex :
    get_projects [] [FsEntry.dirE (OsString.utf8 "a") false true [],
      FsEntry.dirE (OsString.utf8 "b") true true []] 1 = .error () := by
  simp [get_projects, recur_dirE_metaFalse]

/-- C3 amended: an entry the directory iterator fails to yield is skipped and
the scan of the rest of the root continues unchanged; but an entry whose
metadata cannot be read (file or directory) aborts that root's scan with an
error. -/
theorem entry_error_skipped :
    (∀ (dirPath : OsPath) (pre post : List FsEntry) (d : Nat),
      get_projects_recur dirPath (pre ++ FsEntry.err :: post) d =
        get_projects_recur dirPath (pre ++ post) d) ∧
    (∀ (dirPath : OsPath) (name : OsString) (readOk : Bool)
      (sub rest : List FsEntry) (d : Nat),
      get_projects_recur dirPath (FsEntry.dirE name false readOk sub :: rest) d =
        .error ()) ∧
    (∀ (dirPath : OsPath) (name : OsString) (rest : List FsEntry) (d : Nat),
      get_projects_recur dirPath (FsEntry.fileE name false :: rest) d = .error ()) := by
  refine ⟨?_, recur_dirE_metaFalse, recur_fileE_false⟩
  intro dirPath pre post d
  induction pre with
  | nil => simp [recur_err]
  | cons e pre ih =>
    cases e with
    | err => simp only [List.cons_append, recur_err, ih]
    | fileE name metaOk =>
      cases metaOk with
      | false => simp only [List.cons_append, recur_fileE_false]
      | true => simp only [List.cons_append, recur_fileE_true, ih]
    | dirE name metaOk readOk sub =>
      cases metaOk with
      | false => simp only [List.cons_append, recur_dirE_metaFalse]
      | true =>
        by_cases hd : d > 1
        · cases readOk with
          | false =>
            simp only [List.cons_append,
              recur_dirE_deep_readFalse _ _ _ _ _ hd]
          | true =>
            rw [List.cons_append, List.cons_append,
              recur_dirE_deep _ _ _ _ _ hd, recur_dirE_deep _ _ _ _ _ hd, ih]
        · rw [List.cons_append, List.cons_append,
            recur_dirE_shallow _ _ _ _ _ _ hd, recur_dirE_shallow _ _ _ _ _ _ hd, ih]

end FindProject
